import Mathlib

/-
  Verification of `crop_data_download.py` (SAWGraph/ag-kg).

  Shallow embedding of the export script: the pure string helpers are
  translated directly, and the effectful driver (`main` and the
  `__main__` entry) is modelled as a function from an explicit "world"
  (outcomes of the one SELECT call, of each CONSTRUCT call, and of each
  file write) to the trace of externally visible events together with
  the process exit status.
-/

namespace AgKG

/-- ASCII whitespace stripped by Python `str.strip()` with no argument
(the model is restricted to the ASCII whitespace characters). -/
def pyWs (c : Char) : Bool :=
  c == ' ' || c == '\t' || c == '\n' || c == '\r' || c == '\x0b' || c == '\x0c'

/-- Python `str.strip()` on a character list: drop leading and trailing
whitespace. -/
def pyStrip (l : List Char) : List Char :=
  ((l.dropWhile pyWs).reverse.dropWhile pyWs).reverse

/-- The character class `[a-z0-9]` of the regexes in `safe_filename`. -/
def isLower09 (c : Char) : Bool :=
  c.isLower || c.isDigit

/-- Python `s.replace("&", "and")` (the pattern is a single character, so
the replacement is a per-character expansion). -/
def replaceAmp : List Char → List Char
  | [] => []
  | c :: cs => if c == '&' then 'a' :: 'n' :: 'd' :: replaceAmp cs else c :: replaceAmp cs

/-- Run substitution: each maximal run of characters satisfying `p` is
replaced by the single character `r`; the Boolean flag records whether the
previous character was inside such a run.  `subRuns p r false l` models
`re.sub(P+, r, l)` where `P` is the class decided by `p`. -/
def subRuns (p : Char → Bool) (r : Char) : Bool → List Char → List Char
  | _, [] => []
  | inRun, c :: cs =>
    if p c then
      if inRun then subRuns p r true cs
      else r :: subRuns p r true cs
    else c :: subRuns p r false cs

/-- Python `str.strip("_")`: drop leading and trailing underscores. -/
def stripUnd (l : List Char) : List Char :=
  ((l.dropWhile (fun c => c == '_')).reverse.dropWhile (fun c => c == '_')).reverse

/-- The normalization pipeline of `safe_filename`, stage by stage in
source order: `strip()`, `lower()`, `replace("&","and")`,
`re.sub(r"[^a-z0-9]+","_",·)`, `re.sub(r"_+","_",·)`, `strip("_")`. -/
def slugCore (l : List Char) : List Char :=
  stripUnd (subRuns (fun c => c == '_') '_' false
    (subRuns (fun c => !isLower09 c) '_' false
      (replaceAmp ((pyStrip l).map Char.toLower))))

/-- `safe_filename` from `crop_data_download.py`:
`s.strip().lower()`, then `replace("&","and")`, then
`re.sub(r"[^a-z0-9]+","_",s)`, then `re.sub(r"_+","_",s).strip("_")`,
falling back to `"unknown_county"` when the result is empty
(`return s or "unknown_county"`).
(`str.lower` is modelled by `Char.toLower`, its ASCII fragment: a
non-ASCII cased letter lowercases to another non-`[a-z0-9]` character,
which the following substitution collapses to `_` either way.) -/
def safe_filename (s : String) : String :=
  if (slugCore s.data).isEmpty then "unknown_county" else String.mk (slugCore s.data)

/-- The literal part of the pattern `administrativeRegion\.USA\.(\d+)$`. -/
def fipsLit : List Char :=
  "administrativeRegion.USA.".data

/-- Match the anchored pattern `administrativeRegion\.USA\.(\d+)$` at the
start of `l`; on success return the digit group (`\d` is modelled by the
ASCII digits). -/
def matchFips (l : List Char) : Option (List Char) :=
  if fipsLit.isPrefixOf l then
    if (l.drop fipsLit.length).isEmpty then none
    else if (l.drop fipsLit.length).all Char.isDigit then some (l.drop fipsLit.length)
    else none
  else none

/-- `re.search`: try the pattern at every start position, leftmost
position first. -/
def searchFips : List Char → Option (List Char)
  | [] => none
  | c :: t =>
    match matchFips (c :: t) with
    | some ds => some ds
    | none => searchFips t

/-- `extract_fips_from_iri` from `crop_data_download.py`:
`re.search(r"administrativeRegion\.USA\.(\d+)$", county_iri)`, returning
the digit group on a match and `"unknown"` otherwise. -/
def extract_fips_from_iri (s : String) : String :=
  match searchFips s.data with
  | some ds => String.mk ds
  | none => "unknown"

/-- Python substring membership `needle in hay`. -/
def containsSub (needle : List Char) : List Char → Bool
  | [] => needle.isEmpty
  | c :: t => needle.isPrefixOf (c :: t) || containsSub needle t

/-- The HTML sniff of `main`:
`ttl_text.lstrip().lower().startswith("<!doctype html") or
 "<html" in ttl_text[:200].lower()`. -/
def htmlSniff (t : String) : Bool :=
  ("<!doctype html".data.isPrefixOf ((t.data.dropWhile pyWs).map Char.toLower))
  || containsSub ("<html".data) ((t.data.take 200).map Char.toLower)

/-- The SELECT query of `get_maine_counties` (the exact Python literal;
`\x7b`/`\x7d` are the literal braces). -/
def selectQuery : String :=
  "\nPREFIX kwg-ont: <http://stko-kwg.geog.ucsb.edu/lod/ontology/>\nPREFIX kwgr: <http://stko-kwg.geog.ucsb.edu/lod/resource/>\nPREFIX rdfs: <http://www.w3.org/2000/01/rdf-schema#>\n\nSELECT DISTINCT ?county ?label\nWHERE \x7b\n  ?county kwg-ont:administrativePartOf kwgr:administrativeRegion.USA.23 ;\n          rdfs:label ?label .\n  FILTER(CONTAINS(STR(?county), \"administrativeRegion.USA.23\"))\n\x7d\nORDER BY ?label\n"

/-- The part of the CONSTRUCT query template before the interpolated
county IRI. -/
def constructPre : String :=
  "\nPREFIX owl: <http://www.w3.org/2002/07/owl#>\nPREFIX kwg-ont: <http://stko-kwg.geog.ucsb.edu/lod/ontology/>\nPREFIX kwgr: <http://stko-kwg.geog.ucsb.edu/lod/resource/>\nPREFIX sosa: <http://www.w3.org/ns/sosa/>\nPREFIX rdfs: <http://www.w3.org/2000/01/rdf-schema#>\nPREFIX rdf: <http://www.w3.org/1999/02/22-rdf-syntax-ns#>\n\nCONSTRUCT \x7b\n    ?s2Cell sosa:isFeatureOfInterestOf ?croplandObsCollection .\n    ?croplandObsCollection rdf:type kwg-ont:CroplandS2OverlapObservationCollection .\n    ?croplandObsCollection rdfs:label ?label .\n    ?croplandObsCollection sosa:phenomenonTime ?kwgrInstant .\n    ?croplandObsCollection sosa:hasMember ?CroplandS2OverlapObservation .\n    ?CroplandS2OverlapObservation rdf:type kwg-ont:CroplandS2OverlapObservation .\n    ?CroplandS2OverlapObservation rdfs:label ?description .\n    ?CroplandS2OverlapObservation sosa:observedProperty ?observedProperty .\n    ?CroplandS2OverlapObservation sosa:hasSimpleResult ?sosaSimpleResult .\n\x7d\nWHERE \x7b\n    <"

/-- The part of the CONSTRUCT query template after the interpolated
county IRI. -/
def constructPost : String :=
  "> kwg-ont:sfContains ?s2Cell .\n    ?s2Cell sosa:isFeatureOfInterestOf ?croplandObsCollection .\n    ?croplandObsCollection rdf:type kwg-ont:CroplandS2OverlapObservationCollection .\n    ?croplandObsCollection rdfs:label ?label .\n    ?croplandObsCollection sosa:phenomenonTime ?kwgrInstant .\n    ?croplandObsCollection sosa:hasMember ?CroplandS2OverlapObservation .\n    ?CroplandS2OverlapObservation rdf:type kwg-ont:CroplandS2OverlapObservation .\n    ?CroplandS2OverlapObservation rdfs:label ?description .\n    ?CroplandS2OverlapObservation sosa:observedProperty ?observedProperty .\n    ?CroplandS2OverlapObservation sosa:hasSimpleResult ?sosaSimpleResult .\n\x7d\n"

/-- `construct_for_county`: the CONSTRUCT query, parameterized by the
county IRI via f-string interpolation. -/
def construct_for_county (county_iri : String) : String :=
  constructPre ++ county_iri ++ constructPost

/-- One SELECT binding row, projected to the two accessed fields
(`b["county"]["value"]` and `b["label"]["value"]`). -/
structure Binding where
  county : String
  label : String
deriving DecidableEq

/-- `get_maine_counties`, applied to the parsed `results.bindings` rows of
the SELECT response: collect the `(county_iri, label)` pairs in response
order. -/
def get_maine_counties (bindings : List Binding) : List (String × String) :=
  bindings.map (fun b => (b.county, b.label))

/-- Outcome of one `run_construct` call: a non-2xx response raised by
`raise_for_status` (`requests.HTTPError`), any other exception, or a 2xx
response with its body text. -/
inductive FetchResult where
  | httpError (status : Nat) (body : String)
  | otherError (msg : String)
  | success (body : String)
deriving DecidableEq

/-- The environment of one run: the outcome of the single SELECT call
(already parsed to binding rows, `.error` for any failure of the call or
of JSON parsing), the outcome of each CONSTRUCT call keyed by the query
text, and the outcome of each `write_text` keyed by file name and content
(`none` models a raised filesystem error, `some n` a successful write of
`n` bytes). -/
structure World where
  sel : Except String (List Binding)
  fetch : String → FetchResult
  write : String → String → Option Nat

/-- The output directory `OUT_DIR = Path.home() / "Desktop" /
"kwg_maine_cropland_by_county"` (the home prefix is elided; claims only
use it as a fixed path). -/
def OUT_DIR : String :=
  "Desktop/kwg_maine_cropland_by_county"

/-- The per-entity output file name used by the sweep:
`f"cropland_{safe_filename(label)}_{fips}.ttl"` with
`fips = extract_fips_from_iri(county_iri)`. -/
def fnameFor (county_iri label : String) : String :=
  "cropland_" ++ safe_filename label ++ "_" ++ extract_fips_from_iri county_iri ++ ".ttl"

/-- Externally visible events of a run: directory creation
(`mkdir(parents=True, exist_ok=True)`), an HTTP POST of a query, a file
write under a directory, and the pacing `time.sleep(0.3)`. -/
inductive Event where
  | mkdirp (dir : String)
  | post (query : String)
  | wrote (dir name content : String)
  | slept
deriving DecidableEq

/-- How the process ends: normal exit, `sys.exit(1)`, or an uncaught
exception. -/
inductive ExitStatus where
  | ok
  | exit1
  | exn
deriving DecidableEq

/-- One iteration of the sweep loop of `main` (lines 131-160): POST the
CONSTRUCT query; on `requests.HTTPError` or any other exception print and
`continue`; on a 2xx response that sniffs as HTML print and `continue`;
otherwise `write_text` (outside the try block: a raised write error
aborts the whole run, signalled by the returned flag) and then
`time.sleep(0.3)`.  Returns the events of this iteration and whether the
run aborted here. -/
def processEntity (w : World) (county_iri label : String) : List Event × Bool :=
  match w.fetch (construct_for_county county_iri) with
  | .httpError _ _ => ([Event.post (construct_for_county county_iri)], false)
  | .otherError _ => ([Event.post (construct_for_county county_iri)], false)
  | .success body =>
    if htmlSniff body then ([Event.post (construct_for_county county_iri)], false)
    else
      match w.write (fnameFor county_iri label) body with
      | none => ([Event.post (construct_for_county county_iri)], true)
      | some _ =>
        ([Event.post (construct_for_county county_iri),
          Event.wrote OUT_DIR (fnameFor county_iri label) body, Event.slept], false)

/-- The sweep over the enumerated counties, in order; an aborting
iteration cuts the run short with an uncaught exception. -/
def sweepLoop (w : World) : List (String × String) → List Event × ExitStatus
  | [] => ([], ExitStatus.ok)
  | (iri, lbl) :: rest =>
    let step := processEntity w iri lbl
    if step.2 then (step.1, ExitStatus.exn)
    else
      let tail := sweepLoop w rest
      (step.1 ++ tail.1, tail.2)

/-- `main()`: run the SELECT once (a failure there is uncaught and
fatal), then sweep the enumerated counties. -/
def mainRun (w : World) : List Event × ExitStatus :=
  match w.sel with
  | .error _ => ([Event.post selectQuery], ExitStatus.exn)
  | .ok bs =>
    let tail := sweepLoop w (get_maine_counties bs)
    (Event.post selectQuery :: tail.1, tail.2)

/-- The file name used by the single-entity branch:
`f"cropland_{safe_filename(label)}_{target_fips}.ttl"` — note it embeds
the stripped command-line code, not `extract_fips_from_iri`. -/
def singleFname (lbl tfips : String) : String :=
  "cropland_" ++ safe_filename lbl ++ "_" ++ tfips ++ ".ttl"

/-- The part of the single-entity branch after the match lookup: on an
empty match list, print the diagnostic and `sys.exit(1)`; otherwise take
the first match, re-create the output directory, POST the CONSTRUCT
query and write the body unconditionally — no HTML sniff, no sleep, and
no exception handling (a failed fetch or write is an uncaught
exception). -/
def singleCore (w : World) (arg : String) : List (String × String) → List Event × ExitStatus
  | [] => ([Event.post selectQuery], ExitStatus.exit1)
  | (iri, lbl) :: _ =>
    match w.fetch (construct_for_county iri) with
    | .httpError _ _ =>
      ([Event.post selectQuery, Event.mkdirp OUT_DIR,
        Event.post (construct_for_county iri)], ExitStatus.exn)
    | .otherError _ =>
      ([Event.post selectQuery, Event.mkdirp OUT_DIR,
        Event.post (construct_for_county iri)], ExitStatus.exn)
    | .success body =>
      match w.write (singleFname lbl (String.mk (pyStrip arg.data))) body with
      | none =>
        ([Event.post selectQuery, Event.mkdirp OUT_DIR,
          Event.post (construct_for_county iri)], ExitStatus.exn)
      | some _ =>
        ([Event.post selectQuery, Event.mkdirp OUT_DIR,
          Event.post (construct_for_county iri),
          Event.wrote OUT_DIR (singleFname lbl (String.mk (pyStrip arg.data))) body],
         ExitStatus.ok)

/-- The single-entity branch of `__main__` (lines 168-180): strip the
argument, enumerate (a SELECT failure is fatal), filter the counties by
extracted FIPS code, then run `singleCore` on the match list. -/
def singleRun (w : World) (arg : String) : List Event × ExitStatus :=
  match w.sel with
  | .error _ => ([Event.post selectQuery], ExitStatus.exn)
  | .ok bs =>
    singleCore w arg ((get_maine_counties bs).filter
      (fun e => extract_fips_from_iri e.1 == String.mk (pyStrip arg.data)))

/-- The whole program: the module-level `OUT_DIR.mkdir(parents=True,
exist_ok=True)` runs at import time, before anything else; then
`__main__` dispatches on `len(sys.argv) == 2` between single-entity mode
and the full sweep. -/
def runProgram (argv : List String) (w : World) : List Event × ExitStatus :=
  match argv with
  | [_, a] =>
    let r := singleRun w a
    (Event.mkdirp OUT_DIR :: r.1, r.2)
  | _ =>
    let r := mainRun w
    (Event.mkdirp OUT_DIR :: r.1, r.2)

/-! Concrete fixtures used by witnesses and counterexamples. -/

/-- The resource IRI of Androscoggin County (FIPS 23001). -/
def iriAndro : String :=
  "http://stko-kwg.geog.ucsb.edu/lod/resource/administrativeRegion.USA.23001"

/-- The resource IRI of Aroostook County (FIPS 23003). -/
def iriAroo : String :=
  "http://stko-kwg.geog.ucsb.edu/lod/resource/administrativeRegion.USA.23003"

/-- The resource IRI of Cumberland County (FIPS 23005). -/
def iriCumb : String :=
  "http://stko-kwg.geog.ucsb.edu/lod/resource/administrativeRegion.USA.23005"

/-- Display label of Androscoggin County. -/
def lblAndro : String :=
  "Androscoggin County, Maine"

/-- Display label of Aroostook County. -/
def lblAroo : String :=
  "Aroostook County, Maine"

/-- Display label of Cumberland County. -/
def lblCumb : String :=
  "Cumberland County, Maine"

/-- A small Turtle-shaped response body. -/
def ttlBody : String :=
  "@prefix sosa: <http://www.w3.org/ns/sosa/> ."

/-- An HTML-shaped response body (as served by a masked server error). -/
def htmlBody : String :=
  "<html><body>Service error</body></html>"

/-- `construct_for_county` is injective: the county IRI sits between two
fixed delimiters of the template. -/
theorem construct_for_county_inj {a b : String}
    (h : construct_for_county a = construct_for_county b) : a = b := by
  have hd := String.data_eq_of_eq h
  simp only [construct_for_county, String.data_append, List.append_assoc] at hd
  exact String.ext (List.append_cancel_right (List.append_cancel_left hd))

/-- Two strings differing at some character position differ. -/
theorem String.ne_of_data_getElem? {n : Nat} {a b : String}
    (h : a.data[n]? ≠ b.data[n]?) : a ≠ b :=
  fun e => h (by rw [e])

set_option maxRecDepth 4000 in
/-- A CONSTRUCT query is never the SELECT query (they differ at the
ninth character of their prefix blocks). -/
theorem construct_ne_select (iri : String) : construct_for_county iri ≠ selectQuery := by
  apply String.ne_of_data_getElem?
  show (constructPre ++ iri ++ constructPost).data[8]? ≠ selectQuery.data[8]?
  have h9 : (constructPre ++ iri ++ constructPost).data[8]? = constructPre.data[8]? := by
    simp only [String.data_append, List.append_assoc]
    rw [List.getElem?_append_left (by decide)]
  rw [h9]
  decide

/-! Lemmas about `safe_filename` (claim C5). -/

/-- The slug character class `[a-z0-9_]`. -/
def charOk (c : Char) : Bool :=
  isLower09 c || c == '_'

/-- No two adjacent list elements both satisfy `p`. -/
def noTwo (p : Char → Bool) : List Char → Bool
  | a :: b :: t => (!(p a && p b)) && noTwo p (b :: t)
  | _ => true

theorem noTwo_tail {p : Char → Bool} {a : Char} {t : List Char}
    (h : noTwo p (a :: t) = true) : noTwo p t = true := by
  cases t with
  | nil => rfl
  | cons b u => exact (Bool.and_eq_true _ _ |>.mp h).2

theorem mem_subRuns {p : Char → Bool} {r : Char} {c : Char} :
    ∀ {l : List Char} {b : Bool}, c ∈ subRuns p r b l → (c ∈ l ∧ p c = false) ∨ c = r := by
  intro l
  induction l with
  | nil => intro b h; simp [subRuns] at h
  | cons a t ih =>
    intro b h
    cases hpa : p a with
    | true =>
      rw [subRuns, hpa, if_pos rfl] at h
      cases b with
      | true =>
        rcases ih h with ⟨hm, hc⟩ | hr
        · exact Or.inl ⟨List.mem_cons_of_mem _ hm, hc⟩
        · exact Or.inr hr
      | false =>
        rcases List.mem_cons.mp h with hcr | h2
        · exact Or.inr hcr
        · rcases ih h2 with ⟨hm, hc⟩ | hr
          · exact Or.inl ⟨List.mem_cons_of_mem _ hm, hc⟩
          · exact Or.inr hr
    | false =>
      rw [subRuns, hpa] at h
      simp only [Bool.false_eq_true, if_false] at h
      rcases List.mem_cons.mp h with hca | h2
      · exact Or.inl ⟨hca ▸ List.mem_cons_self _ _, hca ▸ hpa⟩
      · rcases ih h2 with ⟨hm, hc⟩ | hr
        · exact Or.inl ⟨List.mem_cons_of_mem _ hm, hc⟩
        · exact Or.inr hr

theorem mem_stripUnd {c : Char} {l : List Char} (h : c ∈ stripUnd l) : c ∈ l := by
  unfold stripUnd at h
  rw [List.mem_reverse] at h
  have h1 := (List.dropWhile_sublist _).subset h
  rw [List.mem_reverse] at h1
  exact (List.dropWhile_sublist _).subset h1

/-- Every character of the pre-fallback slug is in `[a-z0-9_]`. -/
theorem charOk_of_mem_slugCore {l : List Char} {c : Char}
    (h : c ∈ slugCore l) : charOk c = true := by
  have h4 := mem_stripUnd h
  rcases mem_subRuns h4 with ⟨h3, _⟩ | hr
  · rcases mem_subRuns h3 with ⟨_, hc⟩ | hr
    · simp only [charOk, Bool.or_eq_true]
      exact Or.inl (by simpa using hc)
    · subst hr; rfl
  · subst hr; rfl

theorem subRuns_true_head {p : Char → Bool} {r : Char} :
    ∀ {l : List Char} {c : Char}, (subRuns p r true l).head? = some c → p c = false := by
  intro l
  induction l with
  | nil => intro c h; simp [subRuns] at h
  | cons a t ih =>
    intro c h
    cases hpa : p a with
    | true =>
      rw [subRuns, hpa, if_pos rfl] at h
      exact ih h
    | false =>
      rw [subRuns, hpa] at h
      simp only [Bool.false_eq_true, if_false, List.head?_cons, Option.some.injEq] at h
      exact h ▸ hpa

theorem noTwo_cons_cons {p : Char → Bool} {a d : Char} {u : List Char} :
    noTwo p (a :: d :: u) = ((!(p a && p d)) && noTwo p (d :: u)) := rfl

theorem noTwo_subRuns (p : Char → Bool) (r : Char) :
    ∀ (l : List Char) (b : Bool), noTwo p (subRuns p r b l) = true := by
  intro l
  induction l with
  | nil => intro b; rfl
  | cons a t ih =>
    intro b
    cases hpa : p a with
    | true =>
      rw [subRuns, hpa, if_pos rfl]
      cases b with
      | true =>
        rw [if_pos rfl]
        exact ih true
      | false =>
        rw [if_neg (by simp)]
        cases hh : (subRuns p r true t).head? with
        | none =>
          rw [List.head?_eq_none_iff.mp hh]
          rfl
        | some d =>
          rcases List.head?_eq_some_iff.mp hh with ⟨u, hu⟩
          rw [hu, noTwo_cons_cons]
          rw [subRuns_true_head hh, Bool.and_false, Bool.not_false, Bool.true_and]
          rw [← hu]
          exact ih true
    | false =>
      rw [subRuns, hpa]
      simp only [Bool.false_eq_true, if_false]
      cases hh : (subRuns p r false t).head? with
      | none =>
        rw [List.head?_eq_none_iff.mp hh]
        rfl
      | some d =>
        rcases List.head?_eq_some_iff.mp hh with ⟨u, hu⟩
        rw [hu, noTwo_cons_cons]
        rw [hpa, Bool.false_and, Bool.not_false, Bool.true_and, ← hu]
        exact ih false

theorem noTwo_iff_chain (p : Char → Bool) :
    ∀ l : List Char, noTwo p l = true ↔ List.Chain' (fun a b => (p a && p b) = false) l := by
  intro l
  induction l with
  | nil => simp [noTwo]
  | cons a t ih =>
    cases t with
    | nil => simp [noTwo]
    | cons b u =>
      rw [List.chain'_cons, ← ih, noTwo_cons_cons]
      rw [Bool.and_eq_true, Bool.not_eq_true']

theorem noTwo_reverse {p : Char → Bool} {l : List Char}
    (h : noTwo p l = true) : noTwo p l.reverse = true := by
  rw [noTwo_iff_chain] at h ⊢
  rw [List.chain'_reverse]
  refine h.imp (fun a b hab => ?_)
  show (p b && p a) = false
  rw [Bool.and_comm]
  exact hab

theorem noTwo_dropWhile {p q : Char → Bool} :
    ∀ {l : List Char}, noTwo p l = true → noTwo p (l.dropWhile q) = true := by
  intro l
  induction l with
  | nil => intro h; exact h
  | cons a t ih =>
    intro h
    cases hq : q a with
    | true => rw [List.dropWhile_cons_of_pos hq]; exact ih (noTwo_tail h)
    | false => rw [List.dropWhile_cons_of_neg (by simp [hq])]; exact h

theorem noTwo_stripUnd {p : Char → Bool} {l : List Char}
    (h : noTwo p l = true) : noTwo p (stripUnd l) = true := by
  unfold stripUnd
  exact noTwo_reverse (noTwo_dropWhile (noTwo_reverse (noTwo_dropWhile h)))

theorem stripUnd_head {l : List Char} {c : Char}
    (h : (stripUnd l).head? = some c) : (c == '_') = false := by
  unfold stripUnd at h
  rw [List.head?_reverse] at h
  rcases List.dropWhile_suffix (l := (l.dropWhile (fun c => c == '_')).reverse)
    (p := fun c => c == '_') with ⟨pre, hpre⟩
  have h2 : ((l.dropWhile (fun c => c == '_')).reverse).getLast? = some c := by
    rw [← hpre, List.getLast?_append, h]
    rfl
  rw [List.getLast?_reverse] at h2
  have h3 := List.head?_dropWhile_not (fun c => c == '_') l
  rw [h2] at h3
  simpa using h3

theorem stripUnd_getLast {l : List Char} {c : Char}
    (h : (stripUnd l).getLast? = some c) : (c == '_') = false := by
  unfold stripUnd at h
  rw [List.getLast?_reverse] at h
  have := List.head?_dropWhile_not (fun c => c == '_')
    ((l.dropWhile (fun c => c == '_')).reverse)
  rw [h] at this
  simpa using this

theorem head?_mem {l : List Char} {c : Char} (h : l.head? = some c) : c ∈ l := by
  cases l with
  | nil => simp at h
  | cons a t =>
    simp only [List.head?_cons, Option.some.injEq] at h
    exact h ▸ List.mem_cons_self _ _

theorem charOk_toLower {c : Char} (h : charOk c = true) : c.toLower = c := by
  simp only [charOk, isLower09, Bool.or_eq_true, beq_iff_eq] at h
  rcases h with (hl | hd) | he
  · simp only [Char.isLower, Bool.and_eq_true, decide_eq_true_eq, ge_iff_le,
      UInt32.le_def, BitVec.le_def] at hl
    rw [Char.toLower, if_neg]
    simp only [Char.toNat, not_and, not_le]
    intro h65
    have h1 := hl.1
    have e1 : (UInt32.toBitVec 97).toNat = 97 := rfl
    rw [e1] at h1
    simp only [UInt32.toNat] at *
    omega
  · simp only [Char.isDigit, Bool.and_eq_true, decide_eq_true_eq, ge_iff_le,
      UInt32.le_def, BitVec.le_def] at hd
    rw [Char.toLower, if_neg]
    simp only [Char.toNat, not_and, not_le]
    intro h65
    have h2 := hd.2
    have e2 : (UInt32.toBitVec 57).toNat = 57 := rfl
    rw [e2] at h2
    simp only [UInt32.toNat] at *
    omega
  · subst he
    decide

theorem charOk_not_ws {c : Char} (h : charOk c = true) : pyWs c = false := by
  cases hw : pyWs c with
  | false => rfl
  | true =>
    exfalso
    simp only [pyWs, Bool.or_eq_true, beq_iff_eq] at hw
    rcases hw with ((((h1 | h2) | h3) | h4) | h5) | h6 <;>
      first
        | (subst h1; exact absurd h (by decide))
        | (subst h2; exact absurd h (by decide))
        | (subst h3; exact absurd h (by decide))
        | (subst h4; exact absurd h (by decide))
        | (subst h5; exact absurd h (by decide))
        | (subst h6; exact absurd h (by decide))

theorem charOk_ne_amp {c : Char} (h : charOk c = true) : (c == '&') = false := by
  cases he : c == '&' with
  | false => rfl
  | true =>
    exfalso
    have : c = '&' := by simpa using he
    subst this
    exact absurd h (by decide)

theorem dropWhile_eq_self_of_head {q : Char → Bool} {l : List Char}
    (h : ∀ c, l.head? = some c → q c = false) : l.dropWhile q = l := by
  cases l with
  | nil => rfl
  | cons a t =>
    have ha := h a rfl
    rw [List.dropWhile_cons_of_neg (by simp [ha])]

theorem pyStrip_eq_self {l : List Char} (hall : ∀ c ∈ l, pyWs c = false) :
    pyStrip l = l := by
  unfold pyStrip
  have h1 : l.dropWhile pyWs = l :=
    dropWhile_eq_self_of_head (fun c hc => hall c (head?_mem hc))
  rw [h1]
  have h2 : l.reverse.dropWhile pyWs = l.reverse :=
    dropWhile_eq_self_of_head (fun c hc => hall c (List.mem_reverse.mp (head?_mem hc)))
  rw [h2, List.reverse_reverse]

theorem replaceAmp_eq_self {l : List Char} (h : ∀ c ∈ l, (c == '&') = false) :
    replaceAmp l = l := by
  induction l with
  | nil => rfl
  | cons a t ih =>
    have ha := h a (List.mem_cons_self a t)
    rw [replaceAmp, if_neg (by simp [ha])]
    rw [ih (fun c hc => h c (List.mem_cons_of_mem _ hc))]

theorem subRuns_true_eq_false {p : Char → Bool} {r : Char} {l : List Char}
    (h : ∀ c, l.head? = some c → p c = false) :
    subRuns p r true l = subRuns p r false l := by
  cases l with
  | nil => rfl
  | cons a t =>
    have ha := h a rfl
    rw [subRuns, subRuns, ha]
    simp

theorem subRuns_eq_self {p : Char → Bool} {r : Char} :
    ∀ {l : List Char}, (∀ c ∈ l, p c = true → c = r) → noTwo p l = true →
      subRuns p r false l = l := by
  intro l
  induction l with
  | nil => intro _ _; rfl
  | cons a t ih =>
    intro hm hn
    cases hpa : p a with
    | false =>
      rw [subRuns, hpa]
      simp only [Bool.false_eq_true, if_false]
      rw [ih (fun c hc hp => hm c (List.mem_cons_of_mem _ hc) hp) (noTwo_tail hn)]
    | true =>
      have har : a = r := hm a (List.mem_cons_self a t) hpa
      rw [subRuns, hpa, if_pos rfl, if_neg (by simp)]
      subst har
      congr 1
      cases t with
      | nil => rfl
      | cons d u =>
        have hpd : p d = false := by
          rw [noTwo_cons_cons, Bool.and_eq_true, Bool.not_eq_true'] at hn
          have h1 := hn.1
          rw [hpa, Bool.true_and] at h1
          exact h1
        rw [subRuns_true_eq_false (fun c hc => by
          simp only [List.head?_cons, Option.some.injEq] at hc
          exact hc ▸ hpd)]
        exact ih (fun c hc hp => hm c (List.mem_cons_of_mem _ hc) hp) (noTwo_tail hn)

theorem stripUnd_eq_self {l : List Char}
    (hh : ∀ c, l.head? = some c → (c == '_') = false)
    (hl : ∀ c, l.getLast? = some c → (c == '_') = false) : stripUnd l = l := by
  unfold stripUnd
  rw [dropWhile_eq_self_of_head hh]
  rw [dropWhile_eq_self_of_head (fun c hc => hl c (by rwa [List.head?_reverse] at hc))]
  exact List.reverse_reverse l

theorem noTwo_weaken {l : List Char} (hok : ∀ c ∈ l, charOk c = true)
    (hn : noTwo (fun c => c == '_') l = true) :
    noTwo (fun c => !isLower09 c) l = true := by
  induction l with
  | nil => rfl
  | cons a t ih =>
    cases t with
    | nil => rfl
    | cons d u =>
      rw [noTwo_cons_cons, Bool.and_eq_true] at hn
      rw [noTwo_cons_cons, Bool.and_eq_true]
      refine ⟨?_, ih (fun c hc => hok c (List.mem_cons_of_mem _ hc)) hn.2⟩
      cases hia : isLower09 a with
      | true => simp [hia]
      | false =>
        cases hid : isLower09 d with
        | true => simp [hid]
        | false =>
          exfalso
          have ha := hok a (List.mem_cons_self _ _)
          have hd := hok d (List.mem_cons_of_mem _ (List.mem_cons_self _ _))
          rw [charOk, hia, Bool.false_or] at ha
          rw [charOk, hid, Bool.false_or] at hd
          have h1 := hn.1
          rw [Bool.not_eq_true', ha, hd] at h1
          simp at h1

/-- A list that already has the slug shape (characters in `[a-z0-9_]`, no
doubled underscore, no underscore at either end) is a fixed point of the
whole normalization pipeline. -/
theorem slugCore_eq_self {L : List Char}
    (h1 : ∀ c ∈ L, charOk c = true)
    (h2 : noTwo (fun c => c == '_') L = true)
    (h3 : ∀ c, L.head? = some c → (c == '_') = false)
    (h4 : ∀ c, L.getLast? = some c → (c == '_') = false) :
    slugCore L = L := by
  unfold slugCore
  rw [pyStrip_eq_self (fun c hc => charOk_not_ws (h1 c hc))]
  have e2 : L.map Char.toLower = L := by
    have hcg : List.map Char.toLower L = List.map id L :=
      List.map_congr_left (fun c hc => charOk_toLower (h1 c hc))
    rw [hcg, List.map_id]
  rw [e2]
  rw [replaceAmp_eq_self (fun c hc => charOk_ne_amp (h1 c hc))]
  rw [subRuns_eq_self (fun c hc hp => by
      have hok := h1 c hc
      have hfalse : isLower09 c = false := by rwa [Bool.not_eq_true'] at hp
      rw [charOk, hfalse, Bool.false_or] at hok
      simpa using hok)
    (noTwo_weaken h1 h2)]
  rw [subRuns_eq_self (fun c _ hp => by simpa using hp) h2]
  exact stripUnd_eq_self h3 h4

/-- The slug shape of `slugCore` output, bundled. -/
theorem slugCore_good (l : List Char) :
    (∀ c ∈ slugCore l, charOk c = true)
    ∧ noTwo (fun c => c == '_') (slugCore l) = true
    ∧ (∀ c, (slugCore l).head? = some c → (c == '_') = false)
    ∧ (∀ c, (slugCore l).getLast? = some c → (c == '_') = false) := by
  refine ⟨fun c hc => charOk_of_mem_slugCore hc, ?_, fun c hc => stripUnd_head hc,
    fun c hc => stripUnd_getLast hc⟩
  unfold slugCore
  exact noTwo_stripUnd (noTwo_subRuns _ _ _ _)

/-- Claim C5: `safe_filename` (the spec's `slugify`) is total (it is a
Lean function) and idempotent; its output matches `^[a-z0-9_]*$` (every
character is in the class `charOk`) or equals the fallback token
`"unknown_county"`; and it never contains the character `&`. -/
theorem claim_C5_slugify_idempotent_charset (x : String) :
    safe_filename (safe_filename x) = safe_filename x
    ∧ ((∀ c ∈ (safe_filename x).data, charOk c = true) ∨ safe_filename x = "unknown_county")
    ∧ '&' ∉ (safe_filename x).data := by
  have hgood := slugCore_good x.data
  cases he : (slugCore x.data).isEmpty with
  | true =>
    have hx : safe_filename x = "unknown_county" := by
      rw [safe_filename, he]
      simp
    refine ⟨?_, Or.inr hx, ?_⟩
    · rw [hx]
      decide
    · rw [hx]
      decide
  | false =>
    have hx : safe_filename x = String.mk (slugCore x.data) := by
      rw [safe_filename, he]
      simp
    refine ⟨?_, Or.inl ?_, ?_⟩
    · rw [hx]
      have hsc : slugCore ((String.mk (slugCore x.data)).data) = slugCore x.data := by
        show slugCore (slugCore x.data) = slugCore x.data
        exact slugCore_eq_self hgood.1 hgood.2.1 hgood.2.2.1 hgood.2.2.2
      rw [safe_filename, hsc, he]
      simp
    · intro c hc
      rw [hx] at hc
      exact charOk_of_mem_slugCore hc
    · intro hmem
      rw [hx] at hmem
      have hamp : charOk '&' = true := charOk_of_mem_slugCore hmem
      exact absurd hamp (by decide)

/-- Witness for C5 at the concrete label `"A & B, x"` (whose slug is
`"a_and_b_x"`). -/
theorem claim_C5_witness :
    safe_filename (safe_filename ("A & B, x")) = safe_filename ("A & B, x")
    ∧ charOk 'a' = true := by
  have h := claim_C5_slugify_idempotent_charset ("A & B, x")
  refine ⟨h.1, ?_⟩
  rcases h.2.1 with hall | hfb
  · exact hall 'a' (by decide)
  · exact absurd hfb (by decide)

/-! Lemmas about `extract_fips_from_iri` (claim C6). -/

/-- The maximal trailing digit run of a character list. -/
def trailingDigits (l : List Char) : List Char :=
  (l.reverse.takeWhile Char.isDigit).reverse

/-- Decidable test: does the list end with the literal
`administrativeRegion.USA.` followed by one or more digits? -/
def endsFips (l : List Char) : Bool :=
  !(l.reverse.takeWhile Char.isDigit).isEmpty
  && fipsLit.reverse.isPrefixOf (l.reverse.dropWhile Char.isDigit)

theorem takeWhile_nil_head {q : Char → Bool} {l : List Char}
    (h : ∀ c, l.head? = some c → q c = false) : l.takeWhile q = [] := by
  cases l with
  | nil => rfl
  | cons a t =>
    have ha := h a rfl
    rw [List.takeWhile_cons_of_neg (by simp [ha])]

theorem matchFips_some {l ds : List Char} (h : matchFips l = some ds) :
    l = fipsLit ++ ds ∧ ds ≠ [] ∧ ds.all Char.isDigit = true := by
  unfold matchFips at h
  cases hp : fipsLit.isPrefixOf l with
  | false =>
    rw [hp] at h
    simp at h
  | true =>
    rw [hp, if_pos rfl] at h
    rcases List.isPrefixOf_iff_prefix.mp hp with ⟨t, ht⟩
    rw [← ht, List.drop_left] at h
    cases hte : t.isEmpty with
    | true =>
      rw [hte] at h
      simp at h
    | false =>
      rw [hte] at h
      simp only [Bool.false_eq_true, if_false] at h
      cases hta : t.all Char.isDigit with
      | false =>
        rw [hta] at h
        simp at h
      | true =>
        rw [hta, if_pos rfl] at h
        have hts : t = ds := Option.some.inj h
        subst hts
        exact ⟨ht.symm, List.isEmpty_eq_false.mp hte, hta⟩

theorem matchFips_complete {ds : List Char} (hne : ds ≠ [])
    (hall : ds.all Char.isDigit = true) : matchFips (fipsLit ++ ds) = some ds := by
  unfold matchFips
  rw [if_pos (List.isPrefixOf_iff_prefix.mpr ⟨ds, rfl⟩)]
  rw [List.drop_left]
  rw [List.isEmpty_eq_false.mpr hne]
  simp only [Bool.false_eq_true, if_false]
  rw [hall, if_pos rfl]

theorem searchFips_some {ds : List Char} :
    ∀ {l : List Char}, searchFips l = some ds →
      ∃ p, l = p ++ (fipsLit ++ ds) ∧ ds ≠ [] ∧ ds.all Char.isDigit = true := by
  intro l
  induction l with
  | nil => intro h; simp [searchFips] at h
  | cons a t ih =>
    intro h
    rw [searchFips] at h
    cases hm : matchFips (a :: t) with
    | some ds0 =>
      rw [hm] at h
      have hds : ds0 = ds := Option.some.inj h
      subst hds
      rcases matchFips_some hm with ⟨heq, hne, hall⟩
      exact ⟨[], by simpa using heq, hne, hall⟩
    | none =>
      rw [hm] at h
      rcases ih h with ⟨p, hp, hne, hall⟩
      exact ⟨a :: p, by rw [List.cons_append, ← hp], hne, hall⟩

theorem searchFips_isSome_of_match {l : List Char} {x : List Char}
    (h : matchFips l = some x) : (searchFips l).isSome = true := by
  cases l with
  | nil =>
    exfalso
    rw [matchFips] at h
    rw [if_neg (by decide)] at h
    exact Option.noConfusion h
  | cons a t =>
    rw [searchFips, h]
    rfl

theorem searchFips_isSome {ds : List Char} (hne : ds ≠ [])
    (hall : ds.all Char.isDigit = true) :
    ∀ p : List Char, (searchFips (p ++ (fipsLit ++ ds))).isSome = true := by
  intro p
  induction p with
  | nil =>
    simpa using searchFips_isSome_of_match (matchFips_complete hne hall)
  | cons a q ih =>
    rw [List.cons_append, searchFips]
    cases hm : matchFips (a :: (q ++ (fipsLit ++ ds))) with
    | some x => rfl
    | none => exact ih

theorem trailing_of_decomp {p ds : List Char} (hall : ds.all Char.isDigit = true) :
    trailingDigits (p ++ (fipsLit ++ ds)) = ds := by
  unfold trailingDigits
  rw [List.reverse_append, List.reverse_append]
  rw [List.append_assoc]
  rw [List.takeWhile_append_of_pos
    (fun a ha => by
      have := List.all_eq_true.mp hall a (List.mem_reverse.mp ha)
      simpa using this)]
  have hnil : (fipsLit.reverse ++ p.reverse).takeWhile Char.isDigit = [] := by
    apply takeWhile_nil_head
    intro c hc
    rw [List.head?_append] at hc
    have hh : fipsLit.reverse.head? = some '.' := by decide
    rw [hh] at hc
    have : c = '.' := by simpa using hc.symm
    subst this
    decide
  rw [hnil, List.append_nil, List.reverse_reverse]

theorem dropRev_of_decomp {p ds : List Char} (hall : ds.all Char.isDigit = true) :
    ((p ++ (fipsLit ++ ds)).reverse.dropWhile Char.isDigit) = fipsLit.reverse ++ p.reverse := by
  rw [List.reverse_append, List.reverse_append]
  rw [List.append_assoc]
  rw [List.dropWhile_append_of_pos
    (fun a ha => by
      have := List.all_eq_true.mp hall a (List.mem_reverse.mp ha)
      simpa using this)]
  apply dropWhile_eq_self_of_head
  intro c hc
  rw [List.head?_append] at hc
  have hh : fipsLit.reverse.head? = some '.' := by decide
  rw [hh] at hc
  have : c = '.' := by simpa using hc.symm
  subst this
  decide

theorem endsFips_iff {l : List Char} :
    endsFips l = true ↔
      ∃ p ds, l = p ++ (fipsLit ++ ds) ∧ ds ≠ [] ∧ ds.all Char.isDigit = true := by
  constructor
  · intro h
    unfold endsFips at h
    rw [Bool.and_eq_true] at h
    obtain ⟨h1, h2⟩ := h
    rcases List.isPrefixOf_iff_prefix.mp h2 with ⟨q, hq⟩
    refine ⟨q.reverse, (l.reverse.takeWhile Char.isDigit).reverse, ?_, ?_, ?_⟩
    · have hrev : l.reverse = l.reverse.takeWhile Char.isDigit ++ (fipsLit.reverse ++ q) := by
        conv_lhs => rw [← List.takeWhile_append_dropWhile (p := Char.isDigit) (l := l.reverse)]
        rw [← hq]
      have hl2 : l = (l.reverse.takeWhile Char.isDigit ++ (fipsLit.reverse ++ q)).reverse := by
        rw [← hrev, List.reverse_reverse]
      rw [List.reverse_append, List.reverse_append, List.reverse_reverse] at hl2
      rw [List.append_assoc] at hl2
      exact hl2
    · intro hnil
      have : l.reverse.takeWhile Char.isDigit = [] := by
        have := congrArg List.reverse hnil
        rwa [List.reverse_reverse, List.reverse_nil] at this
      rw [this] at h1
      simp at h1
    · rw [List.all_eq_true]
      intro c hc
      exact List.mem_takeWhile_imp (List.mem_reverse.mp hc)
  · rintro ⟨p, ds, rfl, hne, hall⟩
    unfold endsFips
    rw [Bool.and_eq_true]
    constructor
    · have htd := trailing_of_decomp (p := p) hall
      unfold trailingDigits at htd
      have : (p ++ (fipsLit ++ ds)).reverse.takeWhile Char.isDigit = ds.reverse := by
        have := congrArg List.reverse htd
        rwa [List.reverse_reverse] at this
      rw [this]
      simp only [Bool.not_eq_true']
      rw [List.isEmpty_eq_false]
      intro hnil
      have := congrArg List.reverse hnil
      rw [List.reverse_reverse, List.reverse_nil] at this
      exact hne this
    · rw [dropRev_of_decomp hall]
      exact List.isPrefixOf_iff_prefix.mpr ⟨p.reverse, rfl⟩

/-- Claim C6: `extract_fips_from_iri` (the spec's `extractCode`) is a
total function; when the identifier ends with the literal
`administrativeRegion.USA.` followed by one or more digits it returns
exactly the trailing digit run, and otherwise it returns the fallback
token `"unknown"`. -/
theorem claim_C6_extract_fips (s : String) :
    (endsFips s.data = true → extract_fips_from_iri s = String.mk (trailingDigits s.data))
    ∧ (endsFips s.data = false → extract_fips_from_iri s = "unknown") := by
  constructor
  · intro h
    rcases endsFips_iff.mp h with ⟨p, ds, hl, hne, hall⟩
    have hs : (searchFips s.data).isSome = true := by
      rw [hl]
      exact searchFips_isSome hne hall p
    unfold extract_fips_from_iri
    cases hsf : searchFips s.data with
    | none =>
      rw [hsf] at hs
      simp at hs
    | some ds0 =>
      rcases searchFips_some hsf with ⟨p0, hl0, hne0, hall0⟩
      have e0 : trailingDigits s.data = ds0 := by
        rw [hl0]
        exact trailing_of_decomp hall0
      rw [e0]
  · intro h
    unfold extract_fips_from_iri
    cases hsf : searchFips s.data with
    | none => rfl
    | some ds0 =>
      exfalso
      rcases searchFips_some hsf with ⟨p0, hl0, hne0, hall0⟩
      have htrue : endsFips s.data = true := endsFips_iff.mpr ⟨p0, ds0, hl0, hne0, hall0⟩
      rw [h] at htrue
      exact Bool.noConfusion htrue

/-- Witness for C6: the Androscoggin IRI ends in `...USA.23001` and
extracts to `"23001"`; a string without the suffix pattern extracts to
`"unknown"`. -/
theorem claim_C6_witness :
    endsFips (iriAndro.data) = true
    ∧ extract_fips_from_iri iriAndro = "23001"
    ∧ extract_fips_from_iri ("http://x/administrativeRegion.USA.23a") = "unknown" := by
  have h1 := (claim_C6_extract_fips iriAndro).1 (by decide)
  have h2 := (claim_C6_extract_fips ("http://x/administrativeRegion.USA.23a")).2 (by decide)
  refine ⟨by decide, ?_, h2⟩
  rw [h1]
  decide

set_option maxRecDepth 4000 in
/-- Claim C3: the SELECT query carries the `SELECT DISTINCT` and
`ORDER BY ?label` clauses, and `get_maine_counties` preserves order and
multiplicity of the response rows: for any binding list that (as the
SPARQL contract of those clauses guarantees) is duplicate-free and
sorted ascending by label, the returned `(identifier, label)` list is
sorted ascending by label — lexicographically on the raw string — and
contains no duplicate pair. -/
theorem claim_C3_enumeration_sorted_dedup (bs : List Binding)
    (hsorted : bs.Pairwise (fun a b => a.label ≤ b.label))
    (hnodup : bs.Nodup) :
    (containsSub ("SELECT DISTINCT".data) selectQuery.data = true
      ∧ containsSub ("ORDER BY ?label".data) selectQuery.data = true)
    ∧ (get_maine_counties bs).Pairwise (fun a b => a.2 ≤ b.2)
    ∧ (get_maine_counties bs).Nodup := by
  refine ⟨⟨by decide, by decide⟩, ?_, ?_⟩
  · exact hsorted.map _ (fun a b h => h)
  · refine hnodup.map ?_
    intro a b hab
    cases a
    cases b
    simpa using hab

/-- Witness for C3 on a concrete two-row binding list. -/
theorem claim_C3_witness :
    ((get_maine_counties [⟨iriAndro, lblAndro⟩, ⟨iriAroo, lblAroo⟩]).Pairwise
      (fun a b => a.2 ≤ b.2))
    ∧ (get_maine_counties [⟨iriAndro, lblAndro⟩, ⟨iriAroo, lblAroo⟩]).Nodup := by
  have hle : lblAndro ≤ lblAroo := by
    show ¬ (lblAroo < lblAndro)
    rw [String.lt_iff_toList_lt]
    decide
  have hp : List.Pairwise (fun a b : Binding => a.label ≤ b.label)
      [⟨iriAndro, lblAndro⟩, ⟨iriAroo, lblAroo⟩] := by
    refine List.Pairwise.cons ?_ (List.pairwise_singleton _ _)
    intro b hb
    have hb2 : b = (⟨iriAroo, lblAroo⟩ : Binding) := by simpa using hb
    subst hb2
    exact hle
  have h := claim_C3_enumeration_sorted_dedup [⟨iriAndro, lblAndro⟩, ⟨iriAroo, lblAroo⟩]
    hp (by decide)
  exact ⟨h.2.1, h.2.2⟩

/-! Driver lemmas: per-branch behavior of `processEntity` and the sweep. -/

theorem processEntity_httpError {w : World} {iri lbl : String} {st : Nat} {b : String}
    (h : w.fetch (construct_for_county iri) = FetchResult.httpError st b) :
    processEntity w iri lbl = ([Event.post (construct_for_county iri)], false) := by
  unfold processEntity
  rw [h]

theorem processEntity_otherError {w : World} {iri lbl msg : String}
    (h : w.fetch (construct_for_county iri) = FetchResult.otherError msg) :
    processEntity w iri lbl = ([Event.post (construct_for_county iri)], false) := by
  unfold processEntity
  rw [h]

theorem processEntity_html {w : World} {iri lbl b : String}
    (hf : w.fetch (construct_for_county iri) = FetchResult.success b)
    (hs : htmlSniff b = true) :
    processEntity w iri lbl = ([Event.post (construct_for_county iri)], false) := by
  unfold processEntity
  rw [hf]
  simp [hs]

theorem processEntity_writeFail {w : World} {iri lbl b : String}
    (hf : w.fetch (construct_for_county iri) = FetchResult.success b)
    (hs : htmlSniff b = false)
    (hw : w.write (fnameFor iri lbl) b = none) :
    processEntity w iri lbl = ([Event.post (construct_for_county iri)], true) := by
  unfold processEntity
  rw [hf]
  simp [hs, hw]

theorem processEntity_success {w : World} {iri lbl b : String} {n : Nat}
    (hf : w.fetch (construct_for_county iri) = FetchResult.success b)
    (hs : htmlSniff b = false)
    (hw : w.write (fnameFor iri lbl) b = some n) :
    processEntity w iri lbl =
      ([Event.post (construct_for_county iri),
        Event.wrote OUT_DIR (fnameFor iri lbl) b, Event.slept], false) := by
  unfold processEntity
  rw [hf]
  simp [hs, hw]

theorem processEntity_post_mem (w : World) (iri lbl : String) :
    Event.post (construct_for_county iri) ∈ (processEntity w iri lbl).1 := by
  cases hf : w.fetch (construct_for_county iri) with
  | httpError st b =>
    rw [processEntity_httpError hf]
    exact List.mem_cons_self _ _
  | otherError m =>
    rw [processEntity_otherError hf]
    exact List.mem_cons_self _ _
  | success b =>
    cases hs : htmlSniff b with
    | true =>
      rw [processEntity_html hf hs]
      exact List.mem_cons_self _ _
    | false =>
      cases hwr : w.write (fnameFor iri lbl) b with
      | none =>
        rw [processEntity_writeFail hf hs hwr]
        exact List.mem_cons_self _ _
      | some n =>
        rw [processEntity_success hf hs hwr]
        exact List.mem_cons_self _ _

theorem processEntity_no_abort {w : World} {iri lbl : String}
    (hw : ∀ n c, w.write n c ≠ none) :
    (processEntity w iri lbl).2 = false := by
  cases hf : w.fetch (construct_for_county iri) with
  | httpError st b => rw [processEntity_httpError hf]
  | otherError m => rw [processEntity_otherError hf]
  | success b =>
    cases hs : htmlSniff b with
    | true => rw [processEntity_html hf hs]
    | false =>
      cases hwr : w.write (fnameFor iri lbl) b with
      | none => exact absurd hwr (hw _ _)
      | some n => rw [processEntity_success hf hs hwr]

theorem processEntity_wrote_html {w : World} {iri lbl d n c : String}
    (h : Event.wrote d n c ∈ (processEntity w iri lbl).1) :
    htmlSniff c = false ∧ d = OUT_DIR ∧ n = fnameFor iri lbl := by
  cases hf : w.fetch (construct_for_county iri) with
  | httpError st b =>
    rw [processEntity_httpError hf] at h
    simp at h
  | otherError m =>
    rw [processEntity_otherError hf] at h
    simp at h
  | success b =>
    cases hs : htmlSniff b with
    | true =>
      rw [processEntity_html hf hs] at h
      simp at h
    | false =>
      cases hwr : w.write (fnameFor iri lbl) b with
      | none =>
        rw [processEntity_writeFail hf hs hwr] at h
        simp at h
      | some k =>
        rw [processEntity_success hf hs hwr] at h
        rcases List.mem_cons.mp h with h1 | h2
        · exact absurd h1 (by intro hx; exact Event.noConfusion hx)
        · rcases List.mem_cons.mp h2 with h3 | h4
          · have hd : d = OUT_DIR ∧ n = fnameFor iri lbl ∧ c = b := by
              injection h3 with e1 e2 e3
              exact ⟨e1, e2, e3⟩
            rcases hd with ⟨e1, e2, e3⟩
            exact ⟨e3 ▸ hs, e1, e2⟩
          · rcases List.mem_cons.mp h4 with h5 | h6
            · exact absurd h5 (by intro hx; exact Event.noConfusion hx)
            · simp at h6

theorem processEntity_slept_iff (w : World) (iri lbl : String) :
    Event.slept ∈ (processEntity w iri lbl).1 ↔
      ∃ b n, w.fetch (construct_for_county iri) = FetchResult.success b
        ∧ htmlSniff b = false ∧ w.write (fnameFor iri lbl) b = some n := by
  constructor
  · intro h
    cases hf : w.fetch (construct_for_county iri) with
    | httpError st b =>
      rw [processEntity_httpError hf] at h
      simp at h
    | otherError m =>
      rw [processEntity_otherError hf] at h
      simp at h
    | success b =>
      cases hs : htmlSniff b with
      | true =>
        rw [processEntity_html hf hs] at h
        simp at h
      | false =>
        cases hwr : w.write (fnameFor iri lbl) b with
        | none =>
          rw [processEntity_writeFail hf hs hwr] at h
          simp at h
        | some k => exact ⟨b, k, rfl, hs, hwr⟩
  · rintro ⟨b, n, hf, hs, hwr⟩
    rw [processEntity_success hf hs hwr]
    simp

theorem sweepLoop_cons (w : World) (iri lbl : String) (rest : List (String × String)) :
    sweepLoop w ((iri, lbl) :: rest) =
      (if (processEntity w iri lbl).2
       then ((processEntity w iri lbl).1, ExitStatus.exn)
       else ((processEntity w iri lbl).1 ++ (sweepLoop w rest).1, (sweepLoop w rest).2)) := rfl

theorem mem_sweepLoop_of_mem {w : World} (hw : ∀ n c, w.write n c ≠ none) :
    ∀ {cs : List (String × String)} {e : String × String}, e ∈ cs →
      ∀ {x : Event}, x ∈ (processEntity w e.1 e.2).1 → x ∈ (sweepLoop w cs).1 := by
  intro cs
  induction cs with
  | nil => intro e he; simp at he
  | cons c0 rest ih =>
    intro e he x hx
    rcases c0 with ⟨iri, lbl⟩
    rw [sweepLoop_cons, processEntity_no_abort hw]
    simp only [Bool.false_eq_true, if_false]
    rcases List.mem_cons.mp he with he1 | he2
    · subst he1
      exact List.mem_append_left _ hx
    · exact List.mem_append_right _ (ih he2 hx)

theorem sweepLoop_status_ok {w : World} (hw : ∀ n c, w.write n c ≠ none) :
    ∀ cs : List (String × String), (sweepLoop w cs).2 = ExitStatus.ok := by
  intro cs
  induction cs with
  | nil => rfl
  | cons c0 rest ih =>
    rcases c0 with ⟨iri, lbl⟩
    rw [sweepLoop_cons, processEntity_no_abort hw]
    simpa using ih

theorem sweepLoop_wrote_html {w : World} :
    ∀ {cs : List (String × String)} {d n c : String},
      Event.wrote d n c ∈ (sweepLoop w cs).1 → htmlSniff c = false ∧ d = OUT_DIR := by
  intro cs
  induction cs with
  | nil => intro d n c h; simp [sweepLoop] at h
  | cons c0 rest ih =>
    intro d n c h
    rcases c0 with ⟨iri, lbl⟩
    rw [sweepLoop_cons] at h
    cases hab : (processEntity w iri lbl).2 with
    | true =>
      rw [hab, if_pos rfl] at h
      have := processEntity_wrote_html h
      exact ⟨this.1, this.2.1⟩
    | false =>
      rw [hab] at h
      simp only [Bool.false_eq_true, if_false] at h
      rcases List.mem_append.mp h with h1 | h2
      · have := processEntity_wrote_html h1
        exact ⟨this.1, this.2.1⟩
      · exact ih h2

theorem mainRun_ok {w : World} {bs : List Binding} (hsel : w.sel = Except.ok bs) :
    mainRun w = (Event.post selectQuery :: (sweepLoop w (get_maine_counties bs)).1,
      (sweepLoop w (get_maine_counties bs)).2) := by
  unfold mainRun
  rw [hsel]

theorem mainRun_err {w : World} {e : String} (hsel : w.sel = Except.error e) :
    mainRun w = ([Event.post selectQuery], ExitStatus.exn) := by
  unfold mainRun
  rw [hsel]

/-! Claim C1: the HTML-sniff guard. -/

/-- A world whose extraction calls always return an HTML error page with
HTTP 200, against one enumerated county. -/
def worldC1 : World :=
  ⟨Except.ok [⟨iriAndro, lblAndro⟩], fun _ => FetchResult.success htmlBody, fun _ _ => some 1⟩

set_option maxRecDepth 2000 in
/-- Counterexample to claim C1 as stated: in single-entity mode the HTML
sniff is not performed (lines 178-179 write the response body
unconditionally), so an HTML-shaped 2xx body IS persisted to a file. -/
theorem claim_C1_counterexample :
    htmlSniff htmlBody = true
    ∧ Event.wrote OUT_DIR (singleFname lblAndro ("23001")) htmlBody
        ∈ (runProgram ["prog", "23001"] worldC1).1 := by
  constructor
  · decide
  · have h : singleRun worldC1 ("23001") =
        ([Event.post selectQuery, Event.mkdirp OUT_DIR,
          Event.post (construct_for_county iriAndro),
          Event.wrote OUT_DIR (singleFname lblAndro ("23001")) htmlBody],
         ExitStatus.ok) := rfl
    show Event.wrote OUT_DIR (singleFname lblAndro ("23001")) htmlBody ∈
      Event.mkdirp OUT_DIR :: (singleRun worldC1 ("23001")).1
    rw [h]
    exact List.mem_cons_of_mem _ (List.mem_cons_of_mem _ (List.mem_cons_of_mem _
      (List.mem_cons_of_mem _ (List.mem_cons_self _ _))))

/-- Amended claim C1: in full-sweep mode, an output file is written only
when the response body is not HTML-shaped — any body that sniffs as HTML
is never persisted, even on HTTP 2xx.  (Single-entity mode performs no
such check; see the counterexample.) -/
theorem claim_C1_amended_sweep_html_guard (w : World) (d n c : String)
    (h : Event.wrote d n c ∈ (mainRun w).1) : htmlSniff c = false := by
  cases hsel : w.sel with
  | error e =>
    rw [mainRun_err hsel] at h
    rcases List.mem_cons.mp h with h1 | h2
    · exact Event.noConfusion h1
    · simp at h2
  | ok bs =>
    rw [mainRun_ok hsel] at h
    rcases List.mem_cons.mp h with h1 | h2
    · exact Event.noConfusion h1
    · exact (sweepLoop_wrote_html h2).1

/-- Witness for the amended C1: a successful sweep write, whose content
the theorem certifies as non-HTML. -/
def worldOk : World :=
  ⟨Except.ok [⟨iriAndro, lblAndro⟩, ⟨iriAroo, lblAroo⟩],
   fun _ => FetchResult.success ttlBody, fun _ _ => some 1⟩

set_option maxRecDepth 2000 in
theorem claim_C1_amended_witness :
    Event.wrote OUT_DIR (fnameFor iriAndro lblAndro) ttlBody ∈ (mainRun worldOk).1
    ∧ htmlSniff ttlBody = false := by
  have hmem : Event.wrote OUT_DIR (fnameFor iriAndro lblAndro) ttlBody ∈ (mainRun worldOk).1 := by
    rw [mainRun_ok rfl]
    refine List.mem_cons_of_mem _ ?_
    refine mem_sweepLoop_of_mem (fun n c h => Option.noConfusion h)
      (List.mem_cons_self ((iriAndro, lblAndro)) _) ?_
    rw [processEntity_success (rfl) (by decide) (rfl)]
    exact List.mem_cons_of_mem _ (List.mem_cons_self _ _)
  exact ⟨hmem, claim_C1_amended_sweep_html_guard worldOk OUT_DIR (fnameFor iriAndro lblAndro)
    ttlBody hmem⟩

/-! Claim C2: per-entity isolation in the sweep. -/

/-- An extraction oracle that fails with HTTP 500 on the Androscoggin
query and succeeds with Turtle content on every other query. -/
def fetchC2 (q : String) : FetchResult :=
  if q = construct_for_county iriAndro then FetchResult.httpError 500 ("Internal Server Error")
  else FetchResult.success ttlBody

theorem fetchC2_A : fetchC2 (construct_for_county iriAndro) =
    FetchResult.httpError 500 ("Internal Server Error") := by
  unfold fetchC2
  rw [if_pos rfl]

theorem fetchC2_B : fetchC2 (construct_for_county iriAroo) = FetchResult.success ttlBody := by
  unfold fetchC2
  rw [if_neg]
  intro h
  exact absurd (construct_for_county_inj h) (by decide)

/-- A write oracle that raises on the Aroostook file and succeeds
elsewhere. -/
def writeC2 (n : String) (_c : String) : Option Nat :=
  if n = fnameFor iriAroo lblAroo then none else some 1

theorem writeC2_B : writeC2 (fnameFor iriAroo lblAroo) ttlBody = none := by
  unfold writeC2
  rw [if_pos rfl]

attribute [irreducible] fetchC2 writeC2

/-- A world where the first county's extraction fails with HTTP 500, the
second county's extraction succeeds but its file write raises, and a
third county follows. -/
def worldC2 : World :=
  ⟨Except.ok [⟨iriAndro, lblAndro⟩, ⟨iriAroo, lblAroo⟩, ⟨iriCumb, lblCumb⟩],
   fetchC2, writeC2⟩

theorem worldC2_trace :
    mainRun worldC2 = ([Event.post selectQuery,
      Event.post (construct_for_county iriAndro),
      Event.post (construct_for_county iriAroo)], ExitStatus.exn) := by
  have hsel : worldC2.sel =
      Except.ok [⟨iriAndro, lblAndro⟩, ⟨iriAroo, lblAroo⟩, ⟨iriCumb, lblCumb⟩] := rfl
  rw [mainRun_ok hsel]
  have hcs : get_maine_counties [⟨iriAndro, lblAndro⟩, ⟨iriAroo, lblAroo⟩, ⟨iriCumb, lblCumb⟩]
      = [(iriAndro, lblAndro), (iriAroo, lblAroo), (iriCumb, lblCumb)] := rfl
  rw [hcs]
  have hstepA : processEntity worldC2 iriAndro lblAndro =
      ([Event.post (construct_for_county iriAndro)], false) :=
    processEntity_httpError fetchC2_A
  have hstepB : processEntity worldC2 iriAroo lblAroo =
      ([Event.post (construct_for_county iriAroo)], true) :=
    processEntity_writeFail fetchC2_B (by decide) writeC2_B
  rw [sweepLoop_cons, hstepA]
  simp only [Bool.false_eq_true, if_false]
  rw [sweepLoop_cons, hstepB]
  simp

/-- Counterexample to claim C2 as stated: the file write happens outside
the per-entity `try` block, so a raised write error aborts the whole
sweep — here the first county's extraction fails (and is duly skipped),
but the second county's failing `write_text` kills the run and the third
county is never processed, contradicting "only the one-time enumeration
call is allowed to abort the whole run". -/
theorem claim_C2_counterexample :
    worldC2.fetch (construct_for_county iriAndro) =
      FetchResult.httpError 500 ("Internal Server Error")
    ∧ (iriCumb, lblCumb) ∈
        get_maine_counties [⟨iriAndro, lblAndro⟩, ⟨iriAroo, lblAroo⟩, ⟨iriCumb, lblCumb⟩]
    ∧ Event.post (construct_for_county iriCumb) ∉ (mainRun worldC2).1 := by
  refine ⟨fetchC2_A, ?_, ?_⟩
  · show (iriCumb, lblCumb) ∈
      [(iriAndro, lblAndro), (iriAroo, lblAroo), (iriCumb, lblCumb)]
    exact List.mem_cons_of_mem _ (List.mem_cons_of_mem _ (List.mem_cons_self _ _))
  · intro h
    rw [worldC2_trace] at h
    rcases List.mem_cons.mp h with h1 | h2
    · injection h1 with hq
      exact absurd hq (construct_ne_select iriCumb)
    · rcases List.mem_cons.mp h2 with h3 | h4
      · injection h3 with hq
        exact absurd (construct_for_county_inj hq) (by decide)
      · rcases List.mem_cons.mp h4 with h5 | h6
        · injection h5 with hq
          exact absurd (construct_for_county_inj hq) (by decide)
        · simp at h6

/-- Amended claim C2: in a full sweep in which no file write raises,
extraction failures are isolated per entity: if extraction for entity `E`
fails, `E` is skipped without writing a file, every enumerated entity is
still processed (its extraction query is posted), every entity whose
extraction succeeds with non-HTML content still produces its output
file, and the run completes normally.  (A raised file-write error, like
the enumeration call, aborts the whole run — see the counterexample.) -/
theorem claim_C2_amended_isolation (w : World) (bs : List Binding)
    (E : String × String) (hsel : w.sel = Except.ok bs)
    (hw : ∀ n c, w.write n c ≠ none)
    (_hE : E ∈ get_maine_counties bs)
    (hfail : ∀ b, w.fetch (construct_for_county E.1) ≠ FetchResult.success b) :
    (∀ e ∈ get_maine_counties bs, Event.post (construct_for_county e.1) ∈ (mainRun w).1)
    ∧ (∀ d n c, Event.wrote d n c ∉ (processEntity w E.1 E.2).1)
    ∧ (∀ e ∈ get_maine_counties bs, ∀ b,
        w.fetch (construct_for_county e.1) = FetchResult.success b → htmlSniff b = false →
          Event.wrote OUT_DIR (fnameFor e.1 e.2) b ∈ (mainRun w).1)
    ∧ (mainRun w).2 = ExitStatus.ok := by
  refine ⟨?_, ?_, ?_, ?_⟩
  · intro e he
    rw [mainRun_ok hsel]
    exact List.mem_cons_of_mem _ (mem_sweepLoop_of_mem hw he (processEntity_post_mem w e.1 e.2))
  · intro d n c hmem
    cases hf : w.fetch (construct_for_county E.1) with
    | httpError st b =>
      rw [processEntity_httpError hf] at hmem
      rcases List.mem_cons.mp hmem with h1 | h2
      · exact Event.noConfusion h1
      · simp at h2
    | otherError m =>
      rw [processEntity_otherError hf] at hmem
      rcases List.mem_cons.mp hmem with h1 | h2
      · exact Event.noConfusion h1
      · simp at h2
    | success b => exact absurd hf (hfail b)
  · intro e he b hfe hsn
    rw [mainRun_ok hsel]
    refine List.mem_cons_of_mem _ (mem_sweepLoop_of_mem hw he ?_)
    cases hwr : w.write (fnameFor e.1 e.2) b with
    | none => exact absurd hwr (hw _ _)
    | some k =>
      rw [processEntity_success hfe hsn hwr]
      exact List.mem_cons_of_mem _ (List.mem_cons_self _ _)
  · rw [mainRun_ok hsel]
    exact sweepLoop_status_ok hw _

/-- A world for the amended-C2 witness: the first county's extraction
fails, the second succeeds, all writes succeed. -/
def worldC2w : World :=
  ⟨Except.ok [⟨iriAndro, lblAndro⟩, ⟨iriAroo, lblAroo⟩], fetchC2, fun _ _ => some 1⟩

theorem claim_C2_amended_witness :
    Event.post (construct_for_county iriAroo) ∈ (mainRun worldC2w).1
    ∧ Event.wrote OUT_DIR (fnameFor iriAroo lblAroo) ttlBody ∈ (mainRun worldC2w).1
    ∧ (mainRun worldC2w).2 = ExitStatus.ok := by
  have hfailA : ∀ b, worldC2w.fetch (construct_for_county iriAndro) ≠ FetchResult.success b := by
    intro b h
    have h2 : fetchC2 (construct_for_county iriAndro) = FetchResult.success b := h
    rw [fetchC2_A] at h2
    exact FetchResult.noConfusion h2
  have h := claim_C2_amended_isolation worldC2w [⟨iriAndro, lblAndro⟩, ⟨iriAroo, lblAroo⟩]
    ((iriAndro, lblAndro)) rfl (fun n c hh => Option.noConfusion hh)
    (List.mem_cons_self _ _) hfailA
  have hBmem : ((iriAroo, lblAroo) : String × String) ∈
      get_maine_counties [⟨iriAndro, lblAndro⟩, ⟨iriAroo, lblAroo⟩] := by
    show ((iriAroo, lblAroo) : String × String) ∈ [(iriAndro, lblAndro), (iriAroo, lblAroo)]
    exact List.mem_cons_of_mem _ (List.mem_cons_self _ _)
  have c1 : Event.post (construct_for_county iriAroo) ∈ (mainRun worldC2w).1 :=
    h.1 ((iriAroo, lblAroo)) hBmem
  have c3 : (mainRun worldC2w).2 = ExitStatus.ok := h.2.2.2
  have hfB2 : worldC2w.fetch (construct_for_county iriAroo) = FetchResult.success ttlBody :=
    fetchC2_B
  have c2 : Event.wrote OUT_DIR (fnameFor iriAroo lblAroo) ttlBody ∈ (mainRun worldC2w).1 :=
    h.2.2.1 ((iriAroo, lblAroo)) hBmem ttlBody hfB2 (by decide)
  exact ⟨c1, c2, c3⟩

/-! Claim C4: pacing sleep. -/

/-- A world whose single enumerated county fails with HTTP 500. -/
def worldC4 : World :=
  ⟨Except.ok [⟨iriAndro, lblAndro⟩],
   fun _ => FetchResult.httpError 500 ("Internal Server Error"), fun _ _ => some 1⟩

/-- Counterexample to claim C4 as stated: on the transport-failure branch
the `continue` skips the `time.sleep(0.3)` at the end of the loop body,
so no pacing sleep happens for that entity at all. -/
theorem claim_C4_counterexample :
    worldC4.fetch (construct_for_county iriAndro) =
      FetchResult.httpError 500 ("Internal Server Error")
    ∧ Event.slept ∉ (mainRun worldC4).1 := by
  refine ⟨rfl, ?_⟩
  have htrace : mainRun worldC4 = ([Event.post selectQuery,
      Event.post (construct_for_county iriAndro)], ExitStatus.ok) := by
    rw [mainRun_ok rfl]
    have hstep : processEntity worldC4 iriAndro lblAndro =
        ([Event.post (construct_for_county iriAndro)], false) :=
      processEntity_httpError rfl
    have hcs : get_maine_counties [⟨iriAndro, lblAndro⟩] = [(iriAndro, lblAndro)] := rfl
    rw [hcs, sweepLoop_cons, hstep]
    simp
    exact ⟨rfl, rfl⟩
  rw [htrace]
  intro h
  rcases List.mem_cons.mp h with h1 | h2
  · exact Event.noConfusion h1
  · rcases List.mem_cons.mp h2 with h3 | h4
    · exact Event.noConfusion h3
    · simp at h4

/-- Amended claim C4: the pacing sleep runs only on the fully successful
branch — extraction succeeded, the body is not HTML-shaped, and the file
write succeeded — and there it is the last step, after the file write;
the transport-failure, other-exception, and HTML branches `continue`
past it, and a failed write aborts before it. -/
theorem claim_C4_amended_sleep_on_success (w : World) (iri lbl : String) :
    (Event.slept ∈ (processEntity w iri lbl).1 ↔
      ∃ b n, w.fetch (construct_for_county iri) = FetchResult.success b
        ∧ htmlSniff b = false ∧ w.write (fnameFor iri lbl) b = some n)
    ∧ (∀ b n, w.fetch (construct_for_county iri) = FetchResult.success b →
        htmlSniff b = false → w.write (fnameFor iri lbl) b = some n →
        (processEntity w iri lbl).1 =
          [Event.post (construct_for_county iri),
           Event.wrote OUT_DIR (fnameFor iri lbl) b, Event.slept]) := by
  refine ⟨processEntity_slept_iff w iri lbl, ?_⟩
  intro b n hf hs hwr
  rw [processEntity_success hf hs hwr]

theorem claim_C4_amended_witness :
    Event.slept ∈ (processEntity worldOk iriAndro lblAndro).1
    ∧ (processEntity worldOk iriAndro lblAndro).1 =
        [Event.post (construct_for_county iriAndro),
         Event.wrote OUT_DIR (fnameFor iriAndro lblAndro) ttlBody, Event.slept] := by
  have h := claim_C4_amended_sleep_on_success worldOk iriAndro lblAndro
  have he : (processEntity worldOk iriAndro lblAndro).1 =
      [Event.post (construct_for_county iriAndro),
       Event.wrote OUT_DIR (fnameFor iriAndro lblAndro) ttlBody, Event.slept] :=
    h.2 ttlBody 1 rfl (by decide) rfl
  refine ⟨?_, he⟩
  exact h.1.mpr ⟨ttlBody, 1, rfl, by decide, rfl⟩

/-! Claim C7: deterministic file naming and the two-county scenario. -/

set_option maxRecDepth 2000 in
/-- Claim C7: the sweep's output file name is composed as
`"cropland_" ++ slugify(label) ++ "_" ++ extractCode(identifier) ++ ".ttl"`,
and on the concrete two-county enumeration both IRIs are attempted (both
CONSTRUCT queries are posted, in order) and the two files are named
`cropland_androscoggin_county_maine_23001.ttl` and
`cropland_aroostook_county_maine_23003.ttl`. -/
theorem claim_C7_file_naming :
    (∀ iri lbl : String, fnameFor iri lbl =
      "cropland_" ++ safe_filename lbl ++ "_" ++ extract_fips_from_iri iri ++ ".ttl")
    ∧ mainRun worldOk = ([Event.post selectQuery,
        Event.post (construct_for_county iriAndro),
        Event.wrote OUT_DIR ("cropland_androscoggin_county_maine_23001.ttl") ttlBody,
        Event.slept,
        Event.post (construct_for_county iriAroo),
        Event.wrote OUT_DIR ("cropland_aroostook_county_maine_23003.ttl") ttlBody,
        Event.slept], ExitStatus.ok) :=
  ⟨fun _ _ => rfl, by rfl⟩

/-! Claims C8 and C9: single-entity mode. -/

theorem singleRun_ok {w : World} {bs : List Binding} {a : String}
    (hsel : w.sel = Except.ok bs) :
    singleRun w a = singleCore w a ((get_maine_counties bs).filter
      (fun e => extract_fips_from_iri e.1 == String.mk (pyStrip a.data))) := by
  unfold singleRun
  rw [hsel]

theorem singleCore_httpError {w : World} {a iri lbl : String}
    {rest : List (String × String)} {st : Nat} {b : String}
    (hf : w.fetch (construct_for_county iri) = FetchResult.httpError st b) :
    singleCore w a ((iri, lbl) :: rest) =
      ([Event.post selectQuery, Event.mkdirp OUT_DIR,
        Event.post (construct_for_county iri)], ExitStatus.exn) := by
  simp only [singleCore]
  rw [hf]

theorem singleCore_otherError {w : World} {a iri lbl : String}
    {rest : List (String × String)} {msg : String}
    (hf : w.fetch (construct_for_county iri) = FetchResult.otherError msg) :
    singleCore w a ((iri, lbl) :: rest) =
      ([Event.post selectQuery, Event.mkdirp OUT_DIR,
        Event.post (construct_for_county iri)], ExitStatus.exn) := by
  simp only [singleCore]
  rw [hf]

theorem singleCore_writeFail {w : World} {a iri lbl : String}
    {rest : List (String × String)} {b : String}
    (hf : w.fetch (construct_for_county iri) = FetchResult.success b)
    (hw : w.write (singleFname lbl (String.mk (pyStrip a.data))) b = none) :
    singleCore w a ((iri, lbl) :: rest) =
      ([Event.post selectQuery, Event.mkdirp OUT_DIR,
        Event.post (construct_for_county iri)], ExitStatus.exn) := by
  simp only [singleCore]
  rw [hf]
  simp [hw]

theorem singleCore_success {w : World} {a iri lbl : String}
    {rest : List (String × String)} {b : String} {n : Nat}
    (hf : w.fetch (construct_for_county iri) = FetchResult.success b)
    (hw : w.write (singleFname lbl (String.mk (pyStrip a.data))) b = some n) :
    singleCore w a ((iri, lbl) :: rest) =
      ([Event.post selectQuery, Event.mkdirp OUT_DIR,
        Event.post (construct_for_county iri),
        Event.wrote OUT_DIR (singleFname lbl (String.mk (pyStrip a.data))) b],
       ExitStatus.ok) := by
  simp only [singleCore]
  rw [hf]
  simp [hw]

/-- Claim C8: in single-entity mode, a code matching no enumerated
entity ends the process via `sys.exit(1)` (after the diagnostic print)
with no file written; when entities match, the first match in
enumeration order is the one extracted, and any file written carries its
label's name. -/
theorem claim_C8_single_mode_match (w : World) (bs : List Binding) (a : String)
    (hsel : w.sel = Except.ok bs) :
    ((get_maine_counties bs).filter
        (fun e => extract_fips_from_iri e.1 == String.mk (pyStrip a.data)) = [] →
      singleRun w a = ([Event.post selectQuery], ExitStatus.exit1))
    ∧ (∀ m ms, (get_maine_counties bs).filter
          (fun e => extract_fips_from_iri e.1 == String.mk (pyStrip a.data)) = m :: ms →
        (Event.post (construct_for_county m.1) ∈ (singleRun w a).1
         ∧ ∀ d n c, Event.wrote d n c ∈ (singleRun w a).1 →
             n = singleFname m.2 (String.mk (pyStrip a.data)) ∧ d = OUT_DIR)) := by
  constructor
  · intro hm
    rw [singleRun_ok hsel, hm]
    rfl
  · intro m ms hm
    rw [singleRun_ok hsel, hm]
    rcases m with ⟨iri, lbl⟩
    cases hf : w.fetch (construct_for_county iri) with
    | httpError st b =>
      rw [singleCore_httpError hf]
      refine ⟨List.mem_cons_of_mem _ (List.mem_cons_of_mem _ (List.mem_cons_self _ _)), ?_⟩
      intro d n c hc
      rcases List.mem_cons.mp hc with h1 | h2
      · exact Event.noConfusion h1
      · rcases List.mem_cons.mp h2 with h3 | h4
        · exact Event.noConfusion h3
        · rcases List.mem_cons.mp h4 with h5 | h6
          · exact Event.noConfusion h5
          · simp at h6
    | otherError msg =>
      rw [singleCore_otherError hf]
      refine ⟨List.mem_cons_of_mem _ (List.mem_cons_of_mem _ (List.mem_cons_self _ _)), ?_⟩
      intro d n c hc
      rcases List.mem_cons.mp hc with h1 | h2
      · exact Event.noConfusion h1
      · rcases List.mem_cons.mp h2 with h3 | h4
        · exact Event.noConfusion h3
        · rcases List.mem_cons.mp h4 with h5 | h6
          · exact Event.noConfusion h5
          · simp at h6
    | success b =>
      cases hwr : w.write (singleFname lbl (String.mk (pyStrip a.data))) b with
      | none =>
        rw [singleCore_writeFail hf hwr]
        refine ⟨List.mem_cons_of_mem _ (List.mem_cons_of_mem _ (List.mem_cons_self _ _)), ?_⟩
        intro d n c hc
        rcases List.mem_cons.mp hc with h1 | h2
        · exact Event.noConfusion h1
        · rcases List.mem_cons.mp h2 with h3 | h4
          · exact Event.noConfusion h3
          · rcases List.mem_cons.mp h4 with h5 | h6
            · exact Event.noConfusion h5
            · simp at h6
      | some k =>
        rw [singleCore_success hf hwr]
        refine ⟨List.mem_cons_of_mem _ (List.mem_cons_of_mem _ (List.mem_cons_self _ _)), ?_⟩
        intro d n c hc
        rcases List.mem_cons.mp hc with h1 | h2
        · exact Event.noConfusion h1
        · rcases List.mem_cons.mp h2 with h3 | h4
          · exact Event.noConfusion h3
          · rcases List.mem_cons.mp h4 with h5 | h6
            · exact Event.noConfusion h5
            · rcases List.mem_cons.mp h6 with h7 | h8
              · injection h7 with e1 e2 e3
                exact ⟨e2, e1⟩
              · simp at h8

set_option maxRecDepth 2000 in
/-- Witness for C8: with the two-county enumeration, the unmatched code
`"99999"` exits with status 1 and no events beyond the SELECT post, and
the matched code `"23001"` extracts the first (and only) match. -/
theorem claim_C8_witness :
    singleRun worldOk ("99999") = ([Event.post selectQuery], ExitStatus.exit1)
    ∧ Event.post (construct_for_county iriAndro) ∈ (singleRun worldOk ("23001")).1 := by
  constructor
  · exact (claim_C8_single_mode_match worldOk [⟨iriAndro, lblAndro⟩, ⟨iriAroo, lblAroo⟩]
      ("99999") rfl).1 (by rfl)
  · exact ((claim_C8_single_mode_match worldOk [⟨iriAndro, lblAndro⟩, ⟨iriAroo, lblAroo⟩]
      ("23001") rfl).2 ((iriAndro, lblAndro)) [] (by rfl)).1

theorem singleCore_no_slept (w : World) (a : String) :
    ∀ ms : List (String × String), Event.slept ∉ (singleCore w a ms).1 := by
  intro ms
  cases ms with
  | nil =>
    intro h
    rcases List.mem_cons.mp h with h1 | h2
    · exact Event.noConfusion h1
    · simp at h2
  | cons m rest =>
    rcases m with ⟨iri, lbl⟩
    intro h
    cases hf : w.fetch (construct_for_county iri) with
    | httpError st b =>
      rw [singleCore_httpError hf] at h
      rcases List.mem_cons.mp h with h1 | h2
      · exact Event.noConfusion h1
      · rcases List.mem_cons.mp h2 with h3 | h4
        · exact Event.noConfusion h3
        · rcases List.mem_cons.mp h4 with h5 | h6
          · exact Event.noConfusion h5
          · simp at h6
    | otherError msg =>
      rw [singleCore_otherError hf] at h
      rcases List.mem_cons.mp h with h1 | h2
      · exact Event.noConfusion h1
      · rcases List.mem_cons.mp h2 with h3 | h4
        · exact Event.noConfusion h3
        · rcases List.mem_cons.mp h4 with h5 | h6
          · exact Event.noConfusion h5
          · simp at h6
    | success b =>
      cases hwr : w.write (singleFname lbl (String.mk (pyStrip a.data))) b with
      | none =>
        rw [singleCore_writeFail hf hwr] at h
        rcases List.mem_cons.mp h with h1 | h2
        · exact Event.noConfusion h1
        · rcases List.mem_cons.mp h2 with h3 | h4
          · exact Event.noConfusion h3
          · rcases List.mem_cons.mp h4 with h5 | h6
            · exact Event.noConfusion h5
            · simp at h6
      | some k =>
        rw [singleCore_success hf hwr] at h
        rcases List.mem_cons.mp h with h1 | h2
        · exact Event.noConfusion h1
        · rcases List.mem_cons.mp h2 with h3 | h4
          · exact Event.noConfusion h3
          · rcases List.mem_cons.mp h4 with h5 | h6
            · exact Event.noConfusion h5
            · rcases List.mem_cons.mp h6 with h7 | h8
              · exact Event.noConfusion h7
              · simp at h8

/-- Claim C9: in single-entity mode the sweep's per-entity error handling
does not apply: a transport error (non-2xx response), any other extraction
exception, or a failed file write is uncaught and ends the run with an
unhandled exception, writing no file; and no inter-entity pacing sleep
ever happens in single-entity mode. -/
theorem claim_C9_single_mode_fatal (w : World) (bs : List Binding) (a : String)
    (iri lbl : String) (ms : List (String × String))
    (hsel : w.sel = Except.ok bs)
    (hms : (get_maine_counties bs).filter
      (fun e => extract_fips_from_iri e.1 == String.mk (pyStrip a.data)) = (iri, lbl) :: ms) :
    (∀ st b, w.fetch (construct_for_county iri) = FetchResult.httpError st b →
      singleRun w a = ([Event.post selectQuery, Event.mkdirp OUT_DIR,
        Event.post (construct_for_county iri)], ExitStatus.exn))
    ∧ (∀ msg, w.fetch (construct_for_county iri) = FetchResult.otherError msg →
      singleRun w a = ([Event.post selectQuery, Event.mkdirp OUT_DIR,
        Event.post (construct_for_county iri)], ExitStatus.exn))
    ∧ (∀ b, w.fetch (construct_for_county iri) = FetchResult.success b →
        w.write (singleFname lbl (String.mk (pyStrip a.data))) b = none →
      singleRun w a = ([Event.post selectQuery, Event.mkdirp OUT_DIR,
        Event.post (construct_for_county iri)], ExitStatus.exn))
    ∧ Event.slept ∉ (singleRun w a).1 := by
  refine ⟨?_, ?_, ?_, ?_⟩
  · intro st b hf
    rw [singleRun_ok hsel, hms]
    exact singleCore_httpError hf
  · intro msg hf
    rw [singleRun_ok hsel, hms]
    exact singleCore_otherError hf
  · intro b hf hwr
    rw [singleRun_ok hsel, hms]
    exact singleCore_writeFail hf hwr
  · rw [singleRun_ok hsel, hms]
    exact singleCore_no_slept w a _

/-- A world for the C9 witness: single county, transport failure. -/
def worldC9 : World :=
  ⟨Except.ok [⟨iriAndro, lblAndro⟩],
   fun _ => FetchResult.httpError 503 ("Service Unavailable"), fun _ _ => some 1⟩

set_option maxRecDepth 2000 in
theorem claim_C9_witness :
    singleRun worldC9 ("23001") = ([Event.post selectQuery, Event.mkdirp OUT_DIR,
      Event.post (construct_for_county iriAndro)], ExitStatus.exn)
    ∧ Event.slept ∉ (singleRun worldC9 ("23001")).1 := by
  have h := claim_C9_single_mode_fatal worldC9 [⟨iriAndro, lblAndro⟩] ("23001")
    iriAndro lblAndro [] rfl (by rfl)
  exact ⟨h.1 503 ("Service Unavailable") rfl, h.2.2.2⟩

/-! Claim C10: filesystem frame. -/

/-- The filesystem frame condition on one event: any directory creation
or file write stays inside the fixed output directory. -/
def eventTouchesOnlyOut (e : Event) : Prop :=
  match e with
  | Event.mkdirp d => d = OUT_DIR
  | Event.wrote d _ _ => d = OUT_DIR
  | _ => True

theorem processEntity_frame (w : World) (iri lbl : String) :
    ∀ e ∈ (processEntity w iri lbl).1, eventTouchesOnlyOut e := by
  intro e he
  cases hf : w.fetch (construct_for_county iri) with
  | httpError st b =>
    rw [processEntity_httpError hf] at he
    rcases List.mem_cons.mp he with h1 | h2
    · subst h1; trivial
    · simp at h2
  | otherError m =>
    rw [processEntity_otherError hf] at he
    rcases List.mem_cons.mp he with h1 | h2
    · subst h1; trivial
    · simp at h2
  | success b =>
    cases hs : htmlSniff b with
    | true =>
      rw [processEntity_html hf hs] at he
      rcases List.mem_cons.mp he with h1 | h2
      · subst h1; trivial
      · simp at h2
    | false =>
      cases hwr : w.write (fnameFor iri lbl) b with
      | none =>
        rw [processEntity_writeFail hf hs hwr] at he
        rcases List.mem_cons.mp he with h1 | h2
        · subst h1; trivial
        · simp at h2
      | some n =>
        rw [processEntity_success hf hs hwr] at he
        rcases List.mem_cons.mp he with h1 | h2
        · subst h1; trivial
        · rcases List.mem_cons.mp h2 with h3 | h4
          · subst h3; rfl
          · rcases List.mem_cons.mp h4 with h5 | h6
            · subst h5; trivial
            · simp at h6

theorem sweepLoop_frame (w : World) :
    ∀ cs : List (String × String), ∀ e ∈ (sweepLoop w cs).1, eventTouchesOnlyOut e := by
  intro cs
  induction cs with
  | nil => intro e he; simp [sweepLoop] at he
  | cons c0 rest ih =>
    intro e he
    rcases c0 with ⟨iri, lbl⟩
    rw [sweepLoop_cons] at he
    cases hab : (processEntity w iri lbl).2 with
    | true =>
      rw [hab, if_pos rfl] at he
      exact processEntity_frame w iri lbl e he
    | false =>
      rw [hab] at he
      simp only [Bool.false_eq_true, if_false] at he
      rcases List.mem_append.mp he with h1 | h2
      · exact processEntity_frame w iri lbl e h1
      · exact ih e h2

theorem mainRun_frame (w : World) : ∀ e ∈ (mainRun w).1, eventTouchesOnlyOut e := by
  intro e he
  cases hsel : w.sel with
  | error msg =>
    rw [mainRun_err hsel] at he
    rcases List.mem_cons.mp he with h1 | h2
    · subst h1; trivial
    · simp at h2
  | ok bs =>
    rw [mainRun_ok hsel] at he
    rcases List.mem_cons.mp he with h1 | h2
    · subst h1; trivial
    · exact sweepLoop_frame w _ e h2

theorem singleRun_frame (w : World) (a : String) :
    ∀ e ∈ (singleRun w a).1, eventTouchesOnlyOut e := by
  intro e he
  cases hsel : w.sel with
  | error msg =>
    unfold singleRun at he
    rw [hsel] at he
    rcases List.mem_cons.mp he with h1 | h2
    · subst h1; trivial
    · simp at h2
  | ok bs =>
    rw [singleRun_ok hsel] at he
    rcases hms : (get_maine_counties bs).filter
        (fun x => extract_fips_from_iri x.1 == String.mk (pyStrip a.data)) with _ | ⟨⟨iri, lbl⟩, rest⟩
    · rw [hms] at he
      rcases List.mem_cons.mp he with h1 | h2
      · subst h1; trivial
      · simp at h2
    · rw [hms] at he
      cases hf : w.fetch (construct_for_county iri) with
      | httpError st b =>
        rw [singleCore_httpError hf] at he
        rcases List.mem_cons.mp he with h1 | h2
        · subst h1; trivial
        · rcases List.mem_cons.mp h2 with h3 | h4
          · subst h3; rfl
          · rcases List.mem_cons.mp h4 with h5 | h6
            · subst h5; trivial
            · simp at h6
      | otherError msg =>
        rw [singleCore_otherError hf] at he
        rcases List.mem_cons.mp he with h1 | h2
        · subst h1; trivial
        · rcases List.mem_cons.mp h2 with h3 | h4
          · subst h3; rfl
          · rcases List.mem_cons.mp h4 with h5 | h6
            · subst h5; trivial
            · simp at h6
      | success b =>
        cases hwr : w.write (singleFname lbl (String.mk (pyStrip a.data))) b with
        | none =>
          rw [singleCore_writeFail hf hwr] at he
          rcases List.mem_cons.mp he with h1 | h2
          · subst h1; trivial
          · rcases List.mem_cons.mp h2 with h3 | h4
            · subst h3; rfl
            · rcases List.mem_cons.mp h4 with h5 | h6
              · subst h5; trivial
              · simp at h6
        | some n =>
          rw [singleCore_success hf hwr] at he
          rcases List.mem_cons.mp he with h1 | h2
          · subst h1; trivial
          · rcases List.mem_cons.mp h2 with h3 | h4
            · subst h3; rfl
            · rcases List.mem_cons.mp h4 with h5 | h6
              · subst h5; trivial
              · rcases List.mem_cons.mp h6 with h7 | h8
                · subst h7; rfl
                · simp at h8

/-- Claim C10: on every invocation — both modes, all outcomes — the very
first effect is the idempotent recursive creation of the fixed output
directory (so it exists even when no file is written, e.g. an unmatched
code or an all-failing sweep), and every filesystem-touching event of
the run stays inside that directory. -/
theorem claim_C10_outdir_frame (argv : List String) (w : World) :
    (runProgram argv w).1.head? = some (Event.mkdirp OUT_DIR)
    ∧ ∀ e ∈ (runProgram argv w).1, eventTouchesOnlyOut e := by
  rcases argv with _ | ⟨a0, _ | ⟨a1, _ | ⟨a2, rest⟩⟩⟩
  · refine ⟨rfl, ?_⟩
    intro e he
    rcases List.mem_cons.mp he with h1 | h2
    · subst h1; rfl
    · exact mainRun_frame w e h2
  · refine ⟨rfl, ?_⟩
    intro e he
    rcases List.mem_cons.mp he with h1 | h2
    · subst h1; rfl
    · exact mainRun_frame w e h2
  · refine ⟨rfl, ?_⟩
    intro e he
    rcases List.mem_cons.mp he with h1 | h2
    · subst h1; rfl
    · exact singleRun_frame w a1 e h2
  · refine ⟨rfl, ?_⟩
    intro e he
    rcases List.mem_cons.mp he with h1 | h2
    · subst h1; rfl
    · exact mainRun_frame w e h2

/-- A world whose SELECT call fails. -/
def worldErr : World :=
  ⟨Except.error ("connection refused"), fun _ => FetchResult.success ttlBody,
   fun _ _ => some 1⟩

/-- Witness for C10: a run that writes nothing (the enumeration call
fails) still creates the output directory first. -/
theorem claim_C10_witness :
    (runProgram ["prog"] worldErr).1.head? = some (Event.mkdirp OUT_DIR)
    ∧ eventTouchesOnlyOut (Event.mkdirp OUT_DIR) := by
  have h := claim_C10_outdir_frame (["prog"]) worldErr
  refine ⟨h.1, ?_⟩
  refine h.2 (Event.mkdirp OUT_DIR) ?_
  exact List.mem_cons_self _ _

end AgKG
